import Mathlib

/-!
Shallow embedding of the Syscraws AST-lowering middle tier (`src/ast.cpp`)
together with the collaborators it uses (type registry, IR, execution core)
that are declared in headers not present in the repository snapshot; those
are modelled from the specification and marked as such.

Interned types are compared by address in the C++ source; the registry's
structural interning makes address identity coincide with structural
equality, so the embedding represents types as an inductive with structural
equality and separately models the registry (for the interning claims) as an
index-assigning store.
-/

namespace Syscraws

/-- Type variants: `Int`, `Bool`, `Float`, `Func(params, ret)` (spec §3,
`type.hpp` registry owns the instances). -/
inductive Ty where
  | int
  | bool
  | float
  | func (params : List Ty) (ret : Ty)

mutual

/-- Boolean structural equality on types; stands for the C++ address
comparison of interned type references. -/
def Ty.beq : Ty → Ty → Bool
  | .int, .int => true
  | .bool, .bool => true
  | .float, .float => true
  | .func ps r, .func qs s => Ty.beqList ps qs && Ty.beq r s
  | _, _ => false
termination_by structural a => a

/-- Elementwise `Ty.beq` on parameter lists. -/
def Ty.beqList : List Ty → List Ty → Bool
  | [], [] => true
  | a :: as, b :: bs => Ty.beq a b && Ty.beqList as bs
  | _, _ => false
termination_by structural l => l

end

mutual

theorem Ty.beq_iff : ∀ a b : Ty, Ty.beq a b = true ↔ a = b
  | .int, b => by cases b <;> simp [Ty.beq]
  | .bool, b => by cases b <;> simp [Ty.beq]
  | .float, b => by cases b <;> simp [Ty.beq]
  | .func ps r, b => by
      cases b <;>
        simp only [Ty.beq, Bool.and_eq_true, Ty.beq_iff r, Ty.beqList_iff ps]
      · simp
      · simp
      · simp
      · constructor
        · rintro ⟨h1, h2⟩
          simp [h1, h2]
        · rintro h
          injection h with h1 h2
          simp [h1, h2]
termination_by a => sizeOf a

theorem Ty.beqList_iff : ∀ as bs : List Ty, Ty.beqList as bs = true ↔ as = bs
  | [], bs => by cases bs <;> simp [Ty.beqList]
  | a :: as, bs => by
      cases bs with
      | nil => simp [Ty.beqList]
      | cons b bs =>
          simp only [Ty.beqList, Bool.and_eq_true, Ty.beq_iff a b,
            Ty.beqList_iff as bs]
          constructor
          · rintro ⟨h1, h2⟩
            simp [h1, h2]
          · rintro h
            injection h with h1 h2
            simp [h1, h2]
termination_by as => sizeOf as

end

instance : DecidableEq Ty := fun a b =>
  decidable_of_iff (Ty.beq a b = true) (Ty.beq_iff a b)

/-- A function type `type::Func` with its argument list (`get_args`) and
return type (`get_ret`). -/
structure FuncTy where
  args : List Ty
  ret : Ty
deriving DecidableEq

/-- Modelled from the spec: the Type Registry (`type.hpp`, not in `src/`).
Interned instances are identified by their index in the store; `intern`
returns the index of the canonical entry structurally equal to the request,
allocating a new entry only when none exists (spec §4.1). -/
structure TypeRegistry where
  entries : List Ty

/-- Modelled from the spec: look up a structurally equal entry, returning
its index and the (possibly extended) store. -/
def internList : List Ty → Ty → Nat × List Ty
  | [], t => (0, [t])
  | u :: rest, t =>
      if u = t then (0, u :: rest)
      else
        let (i, l) := internList rest t
        (i + 1, u :: l)

/-- Modelled from the spec: registry interning; the returned `Nat` is the
identity of the canonical instance. -/
def TypeRegistry.intern (r : TypeRegistry) (t : Ty) : Nat × TypeRegistry :=
  let (i, l) := internList r.entries t
  (i, ⟨l⟩)

/-- Modelled from the spec: `get_int()`. -/
def TypeRegistry.getInt (r : TypeRegistry) : Nat × TypeRegistry :=
  r.intern .int

/-- Modelled from the spec: `get_bool()`. -/
def TypeRegistry.getBool (r : TypeRegistry) : Nat × TypeRegistry :=
  r.intern .bool

/-- Modelled from the spec: `get_float()`. -/
def TypeRegistry.getFloat (r : TypeRegistry) : Nat × TypeRegistry :=
  r.intern .float

/-- Modelled from the spec: `get_func(params, ret)`. -/
def TypeRegistry.getFunc (r : TypeRegistry) (params : List Ty) (ret : Ty) :
    Nat × TypeRegistry :=
  r.intern (.func params ret)

/-- The closed `Operator` enumeration, in the order of the `switch` in
`OperatorExpr::debug_print` (the enumeration itself lives in `ast.hpp`). -/
inductive Operator where
  | plus
  | minus
  | recip
  | logicalNot
  | bitNot
  | preInc
  | preDec
  | postInc
  | postDec
  | add
  | sub
  | mul
  | div
  | rem
  | leftShift
  | rightShift
  | forwardShift
  | backwardShift
  | equal
  | notEqual
  | less
  | lessEqual
  | greater
  | greaterEqual
  | logicalAnd
  | logicalOr
  | bitAnd
  | bitOr
  | bitXor
  | assign
  | addAssign
  | subAssign
  | mulAssign
  | divAssign
  | remAssign
  | bitAndAssign
  | bitOrAssign
  | bitXorAssign
  | leftShiftAssign
  | rightShiftAssign
  | forwardShiftAssign
  | backwardShiftAssign
deriving DecidableEq

/-- Number of operators (`NumOps` in `ast.hpp`): the `Context` constructor
builds `ops` with this many (initially empty) overload lists. -/
def NumOps : Nat := 42

/-- The index of an operator in the `ops` vector (its enumerator value). -/
def Operator.toIdx : Operator → Nat
  | .plus => 0
  | .minus => 1
  | .recip => 2
  | .logicalNot => 3
  | .bitNot => 4
  | .preInc => 5
  | .preDec => 6
  | .postInc => 7
  | .postDec => 8
  | .add => 9
  | .sub => 10
  | .mul => 11
  | .div => 12
  | .rem => 13
  | .leftShift => 14
  | .rightShift => 15
  | .forwardShift => 16
  | .backwardShift => 17
  | .equal => 18
  | .notEqual => 19
  | .less => 20
  | .lessEqual => 21
  | .greater => 22
  | .greaterEqual => 23
  | .logicalAnd => 24
  | .logicalOr => 25
  | .bitAnd => 26
  | .bitOr => 27
  | .bitXor => 28
  | .assign => 29
  | .addAssign => 30
  | .subAssign => 31
  | .mulAssign => 32
  | .divAssign => 33
  | .remAssign => 34
  | .bitAndAssign => 35
  | .bitOrAssign => 36
  | .bitXorAssign => 37
  | .leftShiftAssign => 38
  | .rightShiftAssign => 39
  | .forwardShiftAssign => 40
  | .backwardShiftAssign => 41

/-- The built-in native implementations registered by the `Context`
constructor: `ir::IAdd`, `ir::FAdd`, `ir::IEq`. -/
inductive NativeFunc where
  | iAdd
  | fAdd
  | iEq
deriving DecidableEq

/-- A C++ `double`, carried opaquely by its bit pattern: no claim interprets
float values, only moves them around. -/
structure DoubleV where
  bits : Nat
deriving DecidableEq

/-- Runtime values of the execution core (`ir.hpp`): integers, floats,
booleans, function references, and unit (the result of an invocation that
takes no `return`, spec §4.5). -/
inductive Value where
  | vInt (n : Int)
  | vFloat (d : DoubleV)
  | vBool (b : Bool)
  | vFunc (f : NativeFunc)
  | vUnit
deriving DecidableEq

/-- IR expression nodes produced by lowering: `ir::Imm` immediates (used in
`Int::translate`, `Float::translate`, `OperatorExpr::translate_func`) and
`ir::Call` nodes (used in `Call::translate`). -/
inductive IrExpr where
  | imm (v : Value)
  | call (callee : IrExpr) (args : List IrExpr)

/-- IR statement nodes: `src/ast.cpp` only ever constructs `ir::ExprStmt`
(in `ExprStmt::translate`), holding the lowered expression and its
continuation; a `none` continuation is the terminal return marker
(the `nullptr` passed by `Stmt::run`). -/
inductive IrStmt where
  | exprStmt (e : IrExpr) (next : Option IrStmt)

/-- A source span (`pos::Range`), opaque to lowering; represented by its
rendered form since it is only ever attached to diagnostics and printed. -/
abbrev Pos := String

/-- AST expression nodes (`ast::Expr` subclasses in `src/ast.cpp`). -/
inductive Expr where
  | ident (pos : Pos) (name : String)
  | intLit (pos : Pos) (value : Int)
  | floatLit (pos : Pos) (value : DoubleV)
  | strLit (pos : Pos) (value : String)
  | call (pos : Pos) (func : Expr) (args : List Expr)
  | opExpr (pos : Pos) (op : Operator)

/-- AST pattern nodes (`ast::Pat`): only `IdPat` exists. -/
inductive Pat where
  | idPat (pos : Pos) (name : String)

/-- AST type references (`ast::Type`): only `TypeName` exists. -/
inductive TypeAst where
  | typeName (pos : Pos) (name : String)

/-- AST statement nodes (`ast::Stmt` subclasses). `exprStmt`'s expression
may be absent (the constructor documents that `expr` may be `nullptr`). -/
inductive Stmt where
  | exprStmt (pos : Pos) (expr : Option Expr)
  | block (pos : Pos) (stmts : List Stmt)
  | ifStmt (pos : Pos) (cond : Expr) (stmtTrue : Stmt) (stmtFalse : Option Stmt)
  | whileStmt (pos : Pos) (cond : Expr) (body : Stmt)
  | breakStmt (pos : Pos)
  | continueStmt (pos : Pos)
  | returnStmt (pos : Pos) (expr : Option Expr)
  | decl (pos : Pos) (left : Pat) (type : Option TypeAst) (right : Option Expr)

/-- Failure outcomes of lowering/execution.
`unimplemented` stands for the C++ member functions whose bodies are empty
in `src/ast.cpp` (flowing off the end of a value-returning function) or are
absent from the snapshot; `nullDeref` stands for dereferencing a null
`std::unique_ptr`; `indexOutOfBounds` stands for an out-of-range
`std::vector` subscript; `noMatchingOverload` is modelled from the spec
(§7, the `TODO` macro of `error.hpp` is not in `src/`); `runtimeError`
stands for an execution-time variant mismatch. -/
inductive Err where
  | unimplemented
  | nullDeref
  | indexOutOfBounds
  | noMatchingOverload (op : Operator) (argTypes : List Ty) (pos : Pos)
  | runtimeError
deriving DecidableEq

/-- One entry of an operator's overload list: the interned `type::Func` and
the `shared_ptr<ir::Func>` implementation. -/
structure OverloadEntry where
  fnTy : FuncTy
  impl : NativeFunc
deriving DecidableEq

/-- The compilation context: the per-operator overload table `ops`
(a `std::vector` indexed by enumerator value). The interned-type registry it
also owns is modelled separately (`TypeRegistry`); types elsewhere in the
embedding are compared structurally, which coincides with the C++ address
comparison by the interning property. -/
structure Context where
  ops : List (List OverloadEntry)

/-- `ops[i].emplace_back(entry)`. -/
def pushOverload (ops : List (List OverloadEntry)) (i : Nat)
    (e : OverloadEntry) : List (List OverloadEntry) :=
  ops.set i ((ops.getD i []) ++ [e])

/-- The `Context` constructor: `ops(NumOps)` then the three built-in
registrations, in source order (`Add`: integer add, then float add;
`Equal`: integer equality). -/
def Context.init : Context :=
  let ops0 := List.replicate NumOps ([] : List OverloadEntry)
  let ops1 := pushOverload ops0 Operator.add.toIdx ⟨⟨[.int, .int], .int⟩, .iAdd⟩
  let ops2 := pushOverload ops1 Operator.add.toIdx ⟨⟨[.float, .float], .float⟩, .fAdd⟩
  let ops3 := pushOverload ops2 Operator.equal.toIdx ⟨⟨[.int, .int], .bool⟩, .iEq⟩
  ⟨ops3⟩

/-- Instrumentation of the lowering order: `lowerExpr e` marks an ordinary
`Expr::translate` dispatch on `e`; `resolveCallee e tys` marks a
`translate_func` resolution of callee `e` against argument types `tys`. -/
inductive Event where
  | lowerExpr (e : Expr)
  | resolveCallee (e : Expr) (argTypes : List Ty)

/-- The inner comparison loop of `OperatorExpr::translate_func`: compare
parameters `0 .. n-1` by identity, with no early exit; a `none` result marks
an out-of-bounds subscript (which claim C9 shows never happens under the
length guard). -/
def paramCompareAux (args expected : List Ty) : Nat → Option Bool
  | 0 => some true
  | n + 1 => do
      let prev ← paramCompareAux args expected n
      let a ← args.get? n
      let b ← expected.get? n
      some (prev && decide (a = b))

/-- One iteration of the overload scan: entries of different arity are
skipped (`continue`) before any parameter is subscripted; otherwise the
parameters are compared pointwise. -/
def entryMatches (e : OverloadEntry) (expected : List Ty) : Option Bool :=
  if e.fnTy.args.length ≠ expected.length then some false
  else paramCompareAux e.fnTy.args expected expected.length

/-- The overload scan of `OperatorExpr::translate_func`: first matching
entry wins; outer `none` marks an out-of-bounds subscript, inner `none`
means no entry matched. -/
def findOverload : List OverloadEntry → List Ty → Option (Option OverloadEntry)
  | [], _ => some none
  | e :: rest, expected =>
      match entryMatches e expected with
      | none => none
      | some true => some (some e)
      | some false => findOverload rest expected

/-- `Expr::translate_func`: resolve this expression as a callable given the
argument types. Only `OperatorExpr` overrides it (scanning `ctx.ops[op]` and
returning the matched function type with an `ir::Imm` holding the
implementation); the base-class body is empty, i.e. undefined. A failed scan
reaches the `TODO` of `error.hpp`, modelled from the spec as
`NoMatchingOverload(op, arg types, span)`. -/
def translateFunc (ctx : Context) (callee : Expr) (expectedArgs : List Ty) :
    Except Err (FuncTy × IrExpr × List Event) :=
  match callee with
  | .opExpr p op =>
      match ctx.ops.get? op.toIdx with
      | none => .error .indexOutOfBounds
      | some entries =>
          match findOverload entries expectedArgs with
          | none => .error .indexOutOfBounds
          | some none => .error (.noMatchingOverload op expectedArgs p)
          | some (some e) =>
              .ok (e.fnTy, .imm (.vFunc e.impl),
                [.resolveCallee (.opExpr p op) expectedArgs])
  | _ => .error .unimplemented

mutual

/-- `Expr::translate` dispatch. `Int`/`Float` lower to typed immediates;
`Call` lowers each argument left to right collecting `(type, IR)` pairs,
then resolves the callee via `translate_func` on the collected types and
builds an `ir::Call`; `Identifier`, `String` and `OperatorExpr` have empty
bodies in `src/ast.cpp` (undefined). The event list records the order of
operations. -/
def translateE (ctx : Context) : Expr → Except Err (Ty × IrExpr × List Event)
  | .ident _ _ => .error .unimplemented
  | .intLit p v => .ok (.int, .imm (.vInt v), [.lowerExpr (.intLit p v)])
  | .floatLit p d => .ok (.float, .imm (.vFloat d), [.lowerExpr (.floatLit p d)])
  | .strLit _ _ => .error .unimplemented
  | .call p f args => do
      let (tys, irs, evArgs) ← translateArgs ctx args
      let (fty, fir, evF) ← translateFunc ctx f tys
      .ok (fty.ret, .call fir irs,
        .lowerExpr (.call p f args) :: (evArgs ++ evF))
  | .opExpr _ _ => .error .unimplemented
termination_by structural e => e

/-- The argument loop of `Call::translate`, in written order. -/
def translateArgs (ctx : Context) :
    List Expr → Except Err (List Ty × List IrExpr × List Event)
  | [] => .ok ([], [], [])
  | e :: rest => do
      let (t, ir, ev) ← translateE ctx e
      let (ts, irs, evs) ← translateArgs ctx rest
      .ok (t :: ts, ir :: irs, ev ++ evs)
termination_by structural l => l

end

/-- `Stmt::translate(ctx, end, num_locals)`. In `src/ast.cpp` only
`ExprStmt::translate` has a body: it unconditionally dereferences `expr`
(`expr->translate(ctx)`) — even though the constructor documents that
`expr` may be `nullptr` — and wraps the lowered expression in an
`ir::ExprStmt` whose continuation is `end`. `Decl::translate` has an empty
body and the remaining statements have no definition in the snapshot. -/
def translateStmt (ctx : Context) (s : Stmt) (endCont : Option IrStmt)
    (numLocals : Nat) : Except Err (IrStmt × Nat) :=
  match s with
  | .exprStmt _ (some e) => do
      let (_, ir, _) ← translateE ctx e
      .ok (.exprStmt ir endCont, numLocals)
  | .exprStmt _ none => .error .nullDeref
  | _ => .error .unimplemented

/-- A call frame: a fixed sequence of value slots (spec §3). -/
abbrev Frame := List Value

/-- Modelled from the spec: float addition is abstracted (its value is
claimed by nothing); integer addition uses exact integer semantics — the
spec flags overflow behavior as an open question (§9), and this development
documents the exact-addition policy. -/
def applyNative : NativeFunc → List Value → Option Value
  | .iAdd, [.vInt a, .vInt b] => some (.vInt (a + b))
  | .fAdd, [.vFloat a, .vFloat b] => some (.vFloat ⟨a.bits + b.bits⟩)
  | .iEq, [.vInt a, .vInt b] => some (.vBool (decide (a = b)))
  | _, _ => none

mutual

/-- Modelled from the spec (§4.5, `ir.hpp` not in `src/`): IR expression
evaluation — immediates yield their constant or function reference; a call
evaluates the callee, then the arguments left to right, then invokes. -/
def evalExpr : IrExpr → Frame → Option Value
  | .imm v, _ => some v
  | .call f args, fr => do
      let fv ← evalExpr f fr
      let avs ← evalArgsIr args fr
      match fv with
      | .vFunc nf => applyNative nf avs
      | _ => none
termination_by structural e => e

/-- Modelled from the spec: left-to-right evaluation of call arguments. -/
def evalArgsIr : List IrExpr → Frame → Option (List Value)
  | [], _ => some []
  | e :: rest, fr => do
      let v ← evalExpr e fr
      let vs ← evalArgsIr rest fr
      some (v :: vs)
termination_by structural l => l

end

/-- Modelled from the spec (§4.5): walk the statement graph — an
`ir::ExprStmt` evaluates its expression for effect, discards the value and
transfers to its continuation; the terminal marker yields unit. -/
def execStmt : IrStmt → Frame → Option Value
  | .exprStmt e next, fr => do
      let _ ← evalExpr e fr
      match next with
      | none => some .vUnit
      | some n => execStmt n fr
termination_by structural s => s

/-- A lowered function (`ir::FuncDef`): local-slot count and entry node. -/
structure FuncDef where
  numLocals : Nat
  entry : Option IrStmt

/-- The driver environment (`ir::Env`), opaque to the core: invocation
allocates its own fresh frame and never reads the environment (spec §4.5,
§6: each call gets a fresh frame). -/
inductive Env where
  | mk

/-- Modelled from the spec: a fresh default-initialized frame sized to the
function's local count. -/
def freshFrame (numLocals : Nat) : Frame :=
  List.replicate numLocals Value.vUnit

/-- Modelled from the spec: bind argument values into the first slots. -/
def bindArgs (args : List Value) (fr : Frame) : Frame :=
  args ++ fr.drop args.length

/-- Modelled from the spec (§4.5): `ir::FuncDef::invoke(env, args)` —
allocate a fresh frame, bind the arguments, walk from the entry node;
an absent entry yields unit. -/
def invoke (fd : FuncDef) (_env : Env) (args : List Value) : Option Value :=
  let fr := bindArgs args (freshFrame fd.numLocals)
  match fd.entry with
  | none => some .vUnit
  | some s => execStmt s fr

/-- `Stmt::run(ctx, env)`: synthesize a fresh `ir::FuncDef`, set its entry
to the statement lowered with the terminal return continuation (`nullptr`)
and the local counter starting at zero, invoke it immediately with no
arguments, and present the resulting value (`ir::print` is the presentation
layer; its argument is what `runStmt` returns). -/
def runStmt (ctx : Context) (env : Env) (s : Stmt) : Except Err Value :=
  match translateStmt ctx s none 0 with
  | .error e => .error e
  | .ok (entry, n) =>
      match invoke ⟨n, some entry⟩ env [] with
      | none => .error .runtimeError
      | some v => .ok v

/-- The fixed display name of each operator (the `switch` in
`OperatorExpr::debug_print`). -/
def opName : Operator → String
  | .plus => "plus"
  | .minus => "minus"
  | .recip => "reciprocal"
  | .logicalNot => "logical not"
  | .bitNot => "bitwise not"
  | .preInc => "prefix increment"
  | .preDec => "prefix decrement"
  | .postInc => "postfix increment"
  | .postDec => "postfix decrement"
  | .add => "add"
  | .sub => "sub"
  | .mul => "mul"
  | .div => "div"
  | .rem => "rem"
  | .leftShift => "left shift"
  | .rightShift => "right shift"
  | .forwardShift => "forward shift"
  | .backwardShift => "backward shift"
  | .equal => "equal to"
  | .notEqual => "not equal to"
  | .less => "less than"
  | .lessEqual => "less than or equal to"
  | .greater => "greater than"
  | .greaterEqual => "greater than or equal to"
  | .logicalAnd => "logical and"
  | .logicalOr => "logical or"
  | .bitAnd => "bitwise and"
  | .bitOr => "bitwise or"
  | .bitXor => "bitwise xor"
  | .assign => "assign"
  | .addAssign => "add assign"
  | .subAssign => "sub assign"
  | .mulAssign => "mul assign"
  | .divAssign => "div assign"
  | .remAssign => "rem assign"
  | .bitAndAssign => "bitwise and assign"
  | .bitOrAssign => "bitwise or assign"
  | .bitXorAssign => "bitwise xor assign"
  | .leftShiftAssign => "left shift assign"
  | .rightShiftAssign => "right shift assign"
  | .forwardShiftAssign => "forward shift assign"
  | .backwardShiftAssign => "backward shift assign"

/-- The `indent` stream manipulator: writes `"  "` once per depth level. -/
def indentStr : Nat → String
  | 0 => ""
  | n + 1 => indentStr n ++ "  "

/-- Rendering of a `double` by `operator<<`, abstracted (no claim depends
on the text). -/
def doubleShow (d : DoubleV) : String :=
  toString d.bits

/-- A debug line as (depth, content); the printed line is
`indentStr depth ++ content`. -/
abbrev DebugLine := Nat × String

/-- Render one debug line the way the `<<` chain does: the `indent`
manipulator, then the rest of the line. -/
def renderLine (l : DebugLine) : String :=
  indentStr l.1 ++ l.2

mutual

/-- `Expr::debug_print` for each expression variant (DEBUG section of
`src/ast.cpp`). -/
def exprDebug (depth : Nat) : Expr → List DebugLine
  | .ident p n => [(depth, p ++ " identifier(" ++ n ++ ")")]
  | .intLit p v => [(depth, p ++ " integer(" ++ toString v ++ ")")]
  | .floatLit p d => [(depth, p ++ " float(" ++ doubleShow d ++ ")")]
  | .strLit p s => [(depth, p ++ " string(" ++ s ++ ")")]
  | .call p f args =>
      (depth, p ++ " call") :: exprDebug (depth + 1) f
        ++ (depth, "args(" ++ toString args.length ++ "):")
          :: exprListDebug (depth + 1) args
  | .opExpr p op => [(depth, p ++ " operator(" ++ opName op ++ ")")]
termination_by structural e => e

/-- The argument loop of `Call::debug_print`. -/
def exprListDebug (depth : Nat) : List Expr → List DebugLine
  | [] => []
  | e :: rest => exprDebug depth e ++ exprListDebug depth rest
termination_by structural l => l

end

/-- `IdPat::debug_print`. -/
def patDebug (depth : Nat) : Pat → List DebugLine
  | .idPat p n => [(depth, p ++ " identifier pattern(" ++ n ++ ")")]

/-- `TypeName::debug_print`. -/
def typeAstDebug (depth : Nat) : TypeAst → List DebugLine
  | .typeName p n => [(depth, p ++ " type name(" ++ n ++ ")")]

mutual

/-- `Stmt::debug_print` for each statement variant (DEBUG section of
`src/ast.cpp`). -/
def stmtDebug (depth : Nat) : Stmt → List DebugLine
  | .exprStmt p (some e) =>
      (depth, p ++ " expression statement") :: exprDebug (depth + 1) e
  | .exprStmt p none =>
      [(depth, p ++ " expression statement (empty)")]
  | .block p ss =>
      (depth, p ++ " block") :: stmtListDebug (depth + 1) ss
        ++ [(depth, "end block")]
  | .ifStmt p c t (some e) =>
      (depth, p ++ " if") :: exprDebug (depth + 1) c
        ++ (depth, "then") :: stmtDebug (depth + 1) t
        ++ (depth, "else") :: stmtDebug (depth + 1) e
        ++ [(depth, "end if")]
  | .ifStmt p c t none =>
      (depth, p ++ " if") :: exprDebug (depth + 1) c
        ++ (depth, "then") :: stmtDebug (depth + 1) t
        ++ [(depth, "end if")]
  | .whileStmt p c b =>
      (depth, p ++ " while") :: exprDebug (depth + 1) c
        ++ (depth, "do") :: stmtDebug (depth + 1) b
        ++ [(depth, "end while")]
  | .breakStmt p => [(depth, p ++ " break")]
  | .continueStmt p => [(depth, p ++ " continue")]
  | .returnStmt p (some e) =>
      (depth, p ++ " return") :: exprDebug (depth + 1) e
  | .returnStmt p none => [(depth, p ++ " return")]
  | .decl p l ty r =>
      (depth, p ++ " decl") :: patDebug (depth + 1) l
        ++ (match ty with
            | some t => typeAstDebug (depth + 1) t
            | none => [])
        ++ (match r with
            | some e => exprDebug (depth + 1) e
            | none => [])
termination_by structural s => s

/-- The statement loop of `Block::debug_print`. -/
def stmtListDebug (depth : Nat) : List Stmt → List DebugLine
  | [] => []
  | s :: rest => stmtDebug depth s ++ stmtListDebug depth rest
termination_by structural l => l

end

/-! Helper lemmas about the overload scan. -/

theorem paramCompareAux_eq (args expected : List Ty) :
    ∀ n, n ≤ args.length → n ≤ expected.length →
      paramCompareAux args expected n =
        some (decide (args.take n = expected.take n))
  | 0, _, _ => by simp [paramCompareAux]
  | n + 1, h1, h2 => by
      have hn1 : n < args.length := h1
      have hn2 : n < expected.length := h2
      have ih := paramCompareAux_eq args expected n (Nat.le_of_succ_le h1)
        (Nat.le_of_succ_le h2)
      rw [paramCompareAux, ih, List.get?_eq_get hn1, List.get?_eq_get hn2]
      show some _ = some _
      congr 1
      rw [← Bool.decide_and]
      apply decide_eq_decide.mpr
      rw [List.take_succ, List.take_succ, List.getElem?_eq_getElem hn1,
        List.getElem?_eq_getElem hn2]
      simp only [Option.toList_some, List.get_eq_getElem]
      constructor
      · rintro ⟨hp, hq⟩
        rw [hp, hq]
      · intro h
        have hlen : (args.take n).length = (expected.take n).length := by
          rw [List.length_take, List.length_take]
          rw [Nat.min_eq_left (Nat.le_of_lt hn1), Nat.min_eq_left (Nat.le_of_lt hn2)]
        have := List.append_inj h hlen
        exact ⟨this.1, by simpa using this.2⟩

theorem entryMatches_eq (e : OverloadEntry) (tys : List Ty) :
    entryMatches e tys = some (decide (e.fnTy.args = tys)) := by
  rw [entryMatches]
  by_cases h : e.fnTy.args.length = tys.length
  · rw [if_neg (by simpa using h)]
    rw [paramCompareAux_eq e.fnTy.args tys tys.length (Nat.le_of_eq h.symm)
      (Nat.le_refl _)]
    rw [List.take_length, ← h, List.take_length]
  · rw [if_pos (by simpa using h)]
    congr 1
    have : e.fnTy.args ≠ tys := fun hc => h (by rw [hc])
    simp [this]

theorem findOverload_eq_find (entries : List OverloadEntry) (tys : List Ty) :
    findOverload entries tys =
      some (entries.find? fun e => decide (e.fnTy.args = tys)) := by
  induction entries with
  | nil => rfl
  | cons e rest ih =>
      rw [findOverload, entryMatches_eq]
      by_cases h : e.fnTy.args = tys
      · simp [h, List.find?]
      · simp only [h, decide_False]
        rw [ih]
        simp [List.find?, h]

/-- Claim C2: resolving an `OperatorExpr` as a callable scans the
operator's overload list in registration order and selects the first entry
whose parameter sequence has the same length and identical types as the
arguments (first match wins, expressed as `List.find?` on exact signature
equality); in a fresh `Context`, `Add` on `(int, int)` selects the integer
add returning `int`, and on `(float, float)` the float add returning
`float`. -/
theorem c2_overload_resolution :
    (∀ (ctx : Context) (p : Pos) (op : Operator) (tys : List Ty)
        (entries : List OverloadEntry),
      ctx.ops.get? op.toIdx = some entries →
      translateFunc ctx (.opExpr p op) tys =
        match entries.find? (fun e => decide (e.fnTy.args = tys)) with
        | some e => .ok (e.fnTy, .imm (.vFunc e.impl),
            [.resolveCallee (.opExpr p op) tys])
        | none => .error (.noMatchingOverload op tys p))
    ∧ (∀ p, translateFunc Context.init (.opExpr p .add) [.int, .int] =
        .ok (⟨[.int, .int], .int⟩, .imm (.vFunc .iAdd),
          [.resolveCallee (.opExpr p .add) [.int, .int]]))
    ∧ (∀ p, translateFunc Context.init (.opExpr p .add) [.float, .float] =
        .ok (⟨[.float, .float], .float⟩, .imm (.vFunc .fAdd),
          [.resolveCallee (.opExpr p .add) [.float, .float]])) := by
  refine ⟨?_, fun _ => rfl, fun _ => rfl⟩
  intro ctx p op tys entries h
  rw [translateFunc, h]
  show (match findOverload entries tys with
    | none => Except.error Err.indexOutOfBounds
    | some none => Except.error (Err.noMatchingOverload op tys p)
    | some (some e) =>
        Except.ok (e.fnTy, IrExpr.imm (Value.vFunc e.impl),
          [Event.resolveCallee (Expr.opExpr p op) tys])) = _
  rw [findOverload_eq_find]
  cases hf : entries.find? fun e => decide (e.fnTy.args = tys) <;> simp [hf]

/-- Witness for C2 at a concrete input: the fresh context's table at `Add`
and the `(int, int)` resolution. -/
theorem c2_overload_resolution_witness :
    translateFunc Context.init (.opExpr "sp" .add) [.int, .int] =
      match ([⟨⟨[.int, .int], .int⟩, .iAdd⟩,
              ⟨⟨[.float, .float], .float⟩, .fAdd⟩] :
          List OverloadEntry).find?
            (fun e => decide (e.fnTy.args = [.int, .int])) with
      | some e => .ok (e.fnTy, .imm (.vFunc e.impl),
          [.resolveCallee (.opExpr "sp" .add) [.int, .int]])
      | none => .error (.noMatchingOverload .add [.int, .int] "sp") :=
  c2_overload_resolution.1 Context.init "sp" .add [.int, .int]
    [⟨⟨[.int, .int], .int⟩, .iAdd⟩, ⟨⟨[.float, .float], .float⟩, .fAdd⟩] rfl

/-- Claim C3: when no overload entry matches exactly (equal arity and
pointwise identical parameter types), resolution fails with
`NoMatchingOverload` carrying the operator, the argument types and the
span; in particular `Add` on `(int, float)` fails that way. -/
theorem c3_no_matching_overload :
    (∀ (ctx : Context) (p : Pos) (op : Operator) (tys : List Ty)
        (entries : List OverloadEntry),
      ctx.ops.get? op.toIdx = some entries →
      (∀ e ∈ entries, e.fnTy.args ≠ tys) →
      translateFunc ctx (.opExpr p op) tys =
        .error (.noMatchingOverload op tys p))
    ∧ (∀ p, translateFunc Context.init (.opExpr p .add) [.int, .float] =
        .error (.noMatchingOverload .add [.int, .float] p)) := by
  refine ⟨?_, fun _ => rfl⟩
  intro ctx p op tys entries h hnone
  rw [translateFunc, h]
  show (match findOverload entries tys with
    | none => Except.error Err.indexOutOfBounds
    | some none => Except.error (Err.noMatchingOverload op tys p)
    | some (some e) =>
        Except.ok (e.fnTy, IrExpr.imm (Value.vFunc e.impl),
          [Event.resolveCallee (Expr.opExpr p op) tys])) = _
  rw [findOverload_eq_find]
  have hf : entries.find? (fun e => decide (e.fnTy.args = tys)) = none := by
    rw [List.find?_eq_none]
    intro e he
    simpa using hnone e he
  rw [hf]

/-- Witness for C3 at a concrete input: `Add` with `(int, float)` matches
neither built-in entry. -/
theorem c3_no_matching_overload_witness :
    translateFunc Context.init (.opExpr "sp" .add) [.int, .float] =
      .error (.noMatchingOverload .add [.int, .float] "sp") :=
  c3_no_matching_overload.1 Context.init "sp" .add [.int, .float]
    [⟨⟨[.int, .int], .int⟩, .iAdd⟩, ⟨⟨[.float, .float], .float⟩, .fAdd⟩] rfl
    (by decide)

/-- Claim C7: `Int` and `Float` literals lower to the corresponding
interned primitive type paired with an immediate carrying the literal's
value; literal lowering never fails and is independent of the context (in
particular of the operator table; `src/ast.cpp` gives literals no access to
any scope stack). -/
theorem c7_literal_lowering :
    ∀ (ctx ctx' : Context) (p : Pos) (v : Int) (d : DoubleV),
      translateE ctx (.intLit p v) =
        .ok (.int, .imm (.vInt v), [.lowerExpr (.intLit p v)])
      ∧ translateE ctx (.floatLit p d) =
        .ok (.float, .imm (.vFloat d), [.lowerExpr (.floatLit p d)])
      ∧ translateE ctx (.intLit p v) = translateE ctx' (.intLit p v)
      ∧ translateE ctx (.floatLit p d) = translateE ctx' (.floatLit p d) :=
  fun _ _ _ _ _ => ⟨rfl, rfl, rfl, rfl⟩

/-- Claim C4 fails on the code: `ExprStmt::translate` dereferences `expr`
unconditionally, so lowering an `ExprStmt` whose expression is absent is a
null-pointer dereference for every continuation, not a no-op node. -/
theorem c4_empty_expr_stmt_null_deref :
    ∀ (ctx : Context) (p : Pos) (endCont : Option IrStmt) (n : Nat),
      translateStmt ctx (.exprStmt p none) endCont n = .error .nullDeref :=
  fun _ _ _ _ => rfl

theorem exceptBind_ok {α β : Type} (a : α) (f : α → Except Err β) :
    (Except.ok a >>= f : Except Err β) = f a := rfl

theorem exceptBind_error {α β : Type} (e : Err) (f : α → Except Err β) :
    ((Except.error e : Except Err α) >>= f : Except Err β) = Except.error e :=
  rfl

theorem translateArgs_ok (ctx : Context) :
    ∀ (args : List Expr) (tys : List Ty) (irs : List IrExpr)
      (evs : List Event),
      translateArgs ctx args = .ok (tys, irs, evs) →
      ∃ trips : List (Ty × IrExpr × List Event),
        List.Forall₂ (fun a r => translateE ctx a = .ok r) args trips
        ∧ tys = trips.map (fun r => r.1)
        ∧ irs = trips.map (fun r => r.2.1)
        ∧ evs = (trips.map (fun r => r.2.2)).flatten := by
  intro args
  induction args with
  | nil =>
      intro tys irs evs h
      rw [translateArgs] at h
      simp only [Except.ok.injEq, Prod.mk.injEq] at h
      obtain ⟨h1, h2, h3⟩ := h
      exact ⟨[], List.Forall₂.nil, h1.symm, h2.symm, h3.symm⟩
  | cons e rest ih =>
      intro tys irs evs h
      rw [translateArgs] at h
      cases he : translateE ctx e with
      | error err =>
          rw [he] at h
          simp only [exceptBind_error] at h
          exact absurd h (by simp)
      | ok r =>
          obtain ⟨t, ir, ev⟩ := r
          rw [he] at h
          simp only [exceptBind_ok] at h
          cases hr : translateArgs ctx rest with
          | error err =>
              rw [hr] at h
              simp only [exceptBind_error] at h
              exact absurd h (by simp)
          | ok rr =>
              obtain ⟨ts, irs2, evs2⟩ := rr
              rw [hr] at h
              simp only [exceptBind_ok, Except.ok.injEq, Prod.mk.injEq] at h
              obtain ⟨h1, h2, h3⟩ := h
              obtain ⟨trips, hfa, hty, hir, hev⟩ := ih ts irs2 evs2 hr
              refine ⟨(t, ir, ev) :: trips, List.Forall₂.cons he hfa,
                ?_, ?_, ?_⟩
              · rw [← h1, List.map_cons, ← hty]
              · rw [← h2, List.map_cons, ← hir]
              · rw [← h3, List.map_cons, List.flatten_cons, ← hev]

theorem translateFunc_events (ctx : Context) (f : Expr) (tys : List Ty)
    (fty : FuncTy) (fir : IrExpr) (evF : List Event)
    (h : translateFunc ctx f tys = .ok (fty, fir, evF)) :
    evF = [.resolveCallee f tys] := by
  unfold translateFunc at h
  split at h
  · split at h
    · exact absurd h (by simp)
    · split at h
      · exact absurd h (by simp)
      · exact absurd h (by simp)
      · simp only [Except.ok.injEq, Prod.mk.injEq] at h
        exact h.2.2.symm
  · exact absurd h (by simp)

/-- Claim C1: lowering a `Call` first lowers every argument left to right
in written order, collecting their `(type, IR)` pairs, then resolves the
callee via `translate_func` on the collected argument types; the result is
the selected overload's return type paired with an `ir::Call` holding the
resolved callee and the argument IR nodes in order, and the resolution
phase performs no ordinary expression lowering of the callee. -/
theorem c1_call_two_phase :
    ∀ (ctx : Context) (p : Pos) (f : Expr) (args : List Expr)
      (t : Ty) (ir : IrExpr) (evs : List Event),
      translateE ctx (.call p f args) = .ok (t, ir, evs) →
      ∃ (trips : List (Ty × IrExpr × List Event)) (fty : FuncTy)
        (fir : IrExpr) (evF : List Event),
        List.Forall₂ (fun a r => translateE ctx a = .ok r) args trips
        ∧ translateFunc ctx f (trips.map fun r => r.1) = .ok (fty, fir, evF)
        ∧ t = fty.ret
        ∧ ir = .call fir (trips.map fun r => r.2.1)
        ∧ evs = .lowerExpr (.call p f args)
            :: ((trips.map fun r => r.2.2).flatten ++ evF)
        ∧ ∀ e : Expr, Event.lowerExpr e ∉ evF := by
  intro ctx p f args t ir evs h
  rw [translateE] at h
  cases ha : translateArgs ctx args with
  | error err =>
      rw [ha] at h
      simp only [exceptBind_error] at h
      exact absurd h (by simp)
  | ok r =>
      obtain ⟨tys, irs, evArgs⟩ := r
      rw [ha] at h
      simp only [exceptBind_ok] at h
      cases hfn : translateFunc ctx f tys with
      | error err =>
          rw [hfn] at h
          simp only [exceptBind_error] at h
          exact absurd h (by simp)
      | ok rf =>
          obtain ⟨fty, fir, evF⟩ := rf
          rw [hfn] at h
          simp only [exceptBind_ok, Except.ok.injEq, Prod.mk.injEq] at h
          obtain ⟨h1, h2, h3⟩ := h
          obtain ⟨trips, hfa, hty, hir, hev⟩ :=
            translateArgs_ok ctx args tys irs evArgs ha
          have hevF := translateFunc_events ctx f tys fty fir evF hfn
          refine ⟨trips, fty, fir, evF, hfa, ?_, h1.symm, ?_, ?_, ?_⟩
          · rw [← hty]
            exact hfn
          · rw [← h2, ← hir]
          · rw [← h3, ← hev]
          · intro e
            rw [hevF]
            simp

/-- Witness for C1 at a concrete input: lowering `add(1, 2)` in a fresh
context. -/
theorem c1_call_two_phase_witness :
    ∃ (trips : List (Ty × IrExpr × List Event)) (fty : FuncTy)
      (fir : IrExpr) (evF : List Event),
      List.Forall₂ (fun a r => translateE Context.init a = .ok r)
        [.intLit "a1" 1, .intLit "a2" 2] trips
      ∧ translateFunc Context.init (.opExpr "op" .add)
          (trips.map fun r => r.1) = .ok (fty, fir, evF)
      ∧ Ty.int = fty.ret
      ∧ IrExpr.call (.imm (.vFunc .iAdd)) [.imm (.vInt 1), .imm (.vInt 2)] =
          .call fir (trips.map fun r => r.2.1)
      ∧ ([.lowerExpr (.call "cp" (.opExpr "op" .add)
            [.intLit "a1" 1, .intLit "a2" 2]),
          .lowerExpr (.intLit "a1" 1), .lowerExpr (.intLit "a2" 2),
          .resolveCallee (.opExpr "op" .add) [.int, .int]] : List Event) =
          .lowerExpr (.call "cp" (.opExpr "op" .add)
            [.intLit "a1" 1, .intLit "a2" 2])
            :: ((trips.map fun r => r.2.2).flatten ++ evF)
      ∧ ∀ e : Expr, Event.lowerExpr e ∉ evF :=
  c1_call_two_phase Context.init "cp" (.opExpr "op" .add)
    [.intLit "a1" 1, .intLit "a2" 2] .int
    (.call (.imm (.vFunc .iAdd)) [.imm (.vInt 1), .imm (.vInt 2)])
    [.lowerExpr (.call "cp" (.opExpr "op" .add)
        [.intLit "a1" 1, .intLit "a2" 2]),
      .lowerExpr (.intLit "a1" 1), .lowerExpr (.intLit "a2" 2),
      .resolveCallee (.opExpr "op" .add) [.int, .int]] rfl

/-! Helper lemmas about the interning store. -/

theorem internList_get : ∀ (l : List Ty) (t : Ty),
    (internList l t).2.get? (internList l t).1 = some t
  | [], t => rfl
  | u :: rest, t => by
      rw [internList]
      by_cases h : u = t
      · simp [h]
      · simp only [if_neg h]
        exact internList_get rest t

theorem internList_stable : ∀ (l : List Ty) (t : Ty),
    internList (internList l t).2 t = ((internList l t).1, (internList l t).2)
  | [], t => by simp [internList]
  | u :: rest, t => by
      rw [internList]
      by_cases h : u = t
      · simp [internList, h]
      · simp only [if_neg h]
        rw [internList, if_neg h, internList_stable rest t]

theorem internList_preserve : ∀ (l : List Ty) (t u : Ty) (i : Nat),
    l.get? i = some u → (internList l t).2.get? i = some u
  | [], _, _, i => by intro h; simp at h
  | v :: rest, t, u, i => by
      intro h
      rw [internList]
      by_cases hv : v = t
      · simpa [hv] using h
      · simp only [if_neg hv]
        cases i with
        | zero => simpa using h
        | succ j =>
            simp only [List.get?_cons_succ] at h ⊢
            exact internList_preserve rest t u j h

theorem intern_identity (r : TypeRegistry) (t u : Ty) :
    ((r.intern t).2.intern u).1 = (r.intern t).1 ↔ u = t := by
  constructor
  · intro h
    have hg1 : (r.intern t).2.entries.get? (r.intern t).1 = some t := by
      simpa [TypeRegistry.intern] using internList_get r.entries t
    have hg2 : ((r.intern t).2.intern u).2.entries.get?
        ((r.intern t).2.intern u).1 = some u := by
      simpa [TypeRegistry.intern] using
        internList_get (r.intern t).2.entries u
    have hg3 : ((r.intern t).2.intern u).2.entries.get? (r.intern t).1 =
        some t := by
      simpa [TypeRegistry.intern] using
        internList_preserve (r.intern t).2.entries u t (r.intern t).1
          (by simpa [TypeRegistry.intern] using hg1)
    rw [h] at hg2
    rw [hg3] at hg2
    injection hg2 with hg2
    exact hg2.symm
  · intro h
    subst h
    simp only [TypeRegistry.intern]
    have := internList_stable r.entries u
    simp only [TypeRegistry.intern] at *
    rw [this]

/-- Claim C5: repeated registry requests with structurally equal arguments
return the same interned instance (`get_int`/`get_bool`/`get_float`, and
`get_func` on elementwise equal parameter lists with equal return type),
and conversely distinct structural requests yield distinct instances, so
identity comparison of interned types coincides with structural
equality. -/
theorem c5_interning :
    ∀ (r : TypeRegistry) (t u : Ty) (params : List Ty) (ret : Ty),
      ((r.intern t).2.intern t).1 = (r.intern t).1
      ∧ (((r.intern t).2.intern u).1 = (r.intern t).1 ↔ u = t)
      ∧ (r.getInt.2.getInt.1 = r.getInt.1)
      ∧ (r.getBool.2.getBool.1 = r.getBool.1)
      ∧ (r.getFloat.2.getFloat.1 = r.getFloat.1)
      ∧ ((r.getFunc params ret).2.getFunc params ret).1 =
          (r.getFunc params ret).1
      ∧ (∀ (params' : List Ty) (ret' : Ty),
          (((r.getFunc params ret).2.getFunc params' ret').1 =
              (r.getFunc params ret).1)
            ↔ (params' = params ∧ ret' = ret)) := by
  intro r t u params ret
  refine ⟨(intern_identity r t t).mpr rfl, intern_identity r t u,
    (intern_identity r .int .int).mpr rfl,
    (intern_identity r .bool .bool).mpr rfl,
    (intern_identity r .float .float).mpr rfl,
    (intern_identity r (.func params ret) (.func params ret)).mpr rfl,
    ?_⟩
  intro params' ret'
  show ((r.intern (.func params ret)).2.intern (.func params' ret')).1 =
      (r.intern (.func params ret)).1 ↔ _
  rw [intern_identity r (.func params ret) (.func params' ret')]
  constructor
  · intro h
    injection h with h1 h2
    exact ⟨h1, h2⟩
  · rintro ⟨h1, h2⟩
    rw [h1, h2]

/-- Claim C6: `Stmt::run` synthesizes a fresh zero-argument function whose
entry is the statement lowered with the terminal return continuation
(`nullptr`) and a zero local counter, invokes it immediately against a
fresh frame with no arguments, and presents the invocation's resulting
value (or unit); the result is independent of the environment (each call
gets a fresh frame) and the context is never mutated. The final conjunct
runs `add(1, 2);` end to end. -/
theorem c6_run_statement :
    ∀ (ctx : Context) (env : Env) (s : Stmt),
      (runStmt ctx env s =
        match translateStmt ctx s none 0 with
        | .error e => .error e
        | .ok (entry, n) =>
            match execStmt entry (freshFrame n) with
            | none => .error .runtimeError
            | some v => .ok v)
      ∧ (∀ (fd : FuncDef) (args : List Value),
          invoke fd env args =
            match fd.entry with
            | none => some .vUnit
            | some st => execStmt st (bindArgs args (freshFrame fd.numLocals)))
      ∧ (∀ env' : Env, runStmt ctx env s = runStmt ctx env' s)
      ∧ runStmt Context.init env
          (.exprStmt "p" (some (.call "q" (.opExpr "r" .add)
            [.intLit "s" 1, .intLit "t" 2]))) = .ok .vUnit := by
  intro ctx env s
  cases env
  refine ⟨?_, fun fd args => rfl, fun env' => by cases env'; rfl, rfl⟩
  rw [runStmt]
  cases h : translateStmt ctx s none 0 with
  | error e => rfl
  | ok r =>
      obtain ⟨entry, n⟩ := r
      rfl

/-- Claim C8: the debug dump gives every operator its fixed display name
(`Add` → "add", `Equal` → "equal to", `LogicalAnd` → "logical and"),
renders each line with exactly two spaces per nesting depth level, and
frames `While` with "while"/"end while" and `If` with
"if"/"then"/"else"/"end if". -/
theorem c8_debug_dump :
    (opName .add = "add" ∧ opName .equal = "equal to"
      ∧ opName .logicalAnd = "logical and")
    ∧ (∀ (d : Nat) (s : String),
        renderLine (d, s) = String.mk (List.replicate (2 * d) ' ') ++ s)
    ∧ (∀ (depth : Nat) (p : Pos) (c : Expr) (b : Stmt),
        stmtDebug depth (.whileStmt p c b) =
          (depth, p ++ " while") :: exprDebug (depth + 1) c
            ++ (depth, "do") :: stmtDebug (depth + 1) b
            ++ [(depth, "end while")])
    ∧ (∀ (depth : Nat) (p : Pos) (c : Expr) (t e : Stmt),
        stmtDebug depth (.ifStmt p c t (some e)) =
          (depth, p ++ " if") :: exprDebug (depth + 1) c
            ++ (depth, "then") :: stmtDebug (depth + 1) t
            ++ (depth, "else") :: stmtDebug (depth + 1) e
            ++ [(depth, "end if")])
    ∧ (∀ (depth : Nat) (p : Pos) (c : Expr) (t : Stmt),
        stmtDebug depth (.ifStmt p c t none) =
          (depth, p ++ " if") :: exprDebug (depth + 1) c
            ++ (depth, "then") :: stmtDebug (depth + 1) t
            ++ [(depth, "end if")]) := by
  refine ⟨⟨rfl, rfl, rfl⟩, ?_, fun _ _ _ _ => rfl, fun _ _ _ _ _ => rfl,
    fun _ _ _ _ => rfl⟩
  have hdata : ∀ d : Nat, (indentStr d).data = List.replicate (2 * d) ' ' := by
    intro d
    induction d with
    | zero => rfl
    | succ n ihn =>
        show (indentStr n ++ "  ").data = _
        rw [String.data_append, ihn]
        have : 2 * (n + 1) = 2 * n + 2 := by ring
        rw [this, List.replicate_add]
        rfl
  intro d s
  show indentStr d ++ s = _
  congr 1
  apply String.ext
  rw [hdata d]

/-- Claim C9: the overload scan is memory safe — entries of different arity
are skipped before any parameter is subscripted (the guarded comparison
never reads out of bounds), every operator's enumerator value indexes
within the `ops` vector built with `NumOps` (one list per operator), and
resolution in a fresh context can never fail with an out-of-bounds
subscript. -/
theorem c9_bounds_safety :
    (∀ (e : OverloadEntry) (tys : List Ty), entryMatches e tys ≠ none)
    ∧ (∀ op : Operator, op.toIdx < NumOps)
    ∧ Context.init.ops.length = NumOps
    ∧ (∀ op : Operator, Context.init.ops.get? op.toIdx ≠ none)
    ∧ (∀ (p : Pos) (op : Operator) (tys : List Ty),
        translateFunc Context.init (.opExpr p op) tys ≠
          .error .indexOutOfBounds) := by
  have h1 : ∀ (e : OverloadEntry) (tys : List Ty),
      entryMatches e tys ≠ none := by
    intro e tys
    rw [entryMatches_eq]
    simp
  have h4 : ∀ op : Operator, Context.init.ops.get? op.toIdx ≠ none := by
    intro op
    cases op <;> decide
  refine ⟨h1, fun op => by cases op <;> decide, rfl, h4, ?_⟩
  intro p op tys h
  rw [translateFunc] at h
  cases hget : Context.init.ops.get? op.toIdx with
  | none => exact h4 op hget
  | some entries =>
      rw [hget] at h
      simp only [] at h
      rw [findOverload_eq_find] at h
      cases hf : entries.find? fun e => decide (e.fnTy.args = tys) <;>
        rw [hf] at h <;> simp at h

/-- Witness for C9 at concrete inputs: a sample arity-mismatched entry
comparison, and resolution of `Mul` on `(int)` in a fresh context. -/
theorem c9_bounds_safety_witness :
    entryMatches ⟨⟨[.int, .int], .int⟩, .iAdd⟩ [.int] ≠ none
    ∧ translateFunc Context.init (.opExpr "wp" .mul) [.int] ≠
        .error .indexOutOfBounds :=
  ⟨c9_bounds_safety.1 ⟨⟨[.int, .int], .int⟩, .iAdd⟩ [.int],
   c9_bounds_safety.2.2.2.2 "wp" .mul [.int]⟩

/-- Claim C10: in a freshly constructed context, `Add` has exactly the two
entries `(int, int) → int` (integer add) then `(float, float) → float`
(float add) in that order, `Equal` exactly `(int, int) → bool` (integer
equality), and every other operator's list is empty, so resolving any such
operator fails with `NoMatchingOverload` for every argument-type list. -/
theorem c10_initial_overload_table :
    (Context.init.ops.get? Operator.add.toIdx =
      some [⟨⟨[.int, .int], .int⟩, .iAdd⟩,
            ⟨⟨[.float, .float], .float⟩, .fAdd⟩])
    ∧ (Context.init.ops.get? Operator.equal.toIdx =
      some [⟨⟨[.int, .int], .bool⟩, .iEq⟩])
    ∧ (∀ op : Operator, op ≠ .add → op ≠ .equal →
        Context.init.ops.get? op.toIdx = some []
        ∧ ∀ (p : Pos) (tys : List Ty),
            translateFunc Context.init (.opExpr p op) tys =
              .error (.noMatchingOverload op tys p)) := by
  refine ⟨rfl, rfl, ?_⟩
  intro op h1 h2
  cases op <;> first
    | exact absurd rfl h1
    | exact absurd rfl h2
    | exact ⟨rfl, fun p tys => rfl⟩

/-- Witness for C10 at a concrete input: `Sub` has an empty overload list
and fails to resolve on `(int)`. -/
theorem c10_initial_overload_table_witness :
    Context.init.ops.get? Operator.sub.toIdx = some []
    ∧ translateFunc Context.init (.opExpr "wq" .sub) [.int] =
        .error (.noMatchingOverload .sub [.int] "wq") :=
  ⟨(c10_initial_overload_table.2.2 .sub (by decide) (by decide)).1,
   (c10_initial_overload_table.2.2 .sub (by decide) (by decide)).2
     "wq" [.int]⟩

end Syscraws
